import Mathlib

/-!
Verification of the react-slot library (src/index.js): the Slot marker
component and the findSlots children scanner, modelled as a shallow
embedding of the JavaScript semantics.
-/

namespace ReactSlot

/-- A child node as seen by findSlots.  A React element whose type is the
Slot component carries a name prop (absent = none) and nested children;
any other element or object has some other type; primitives (strings,
numbers, booleans) tolerate property access, which yields undefined;
null and undefined throw a TypeError on property access. -/
inductive Node where
  | slotEl (name : Option String) (slotChildren : List Node)
  | elem (id : Nat)
  | prim (id : Nat)
  | null
  | undef

/-- The slots object built by findSlots: a JavaScript object, i.e. an
association list with unique keys, insertion ordered. -/
abbrev SlotMap := List (String × List Node)

/-- Errors findSlots can raise: the explicit throw for a missing slot
name, and the implicit TypeError from reading a property of null or
undefined. -/
inductive JSError where
  | typeError
  | missingSlotName
  deriving DecidableEq, Repr

/-- JavaScript object property assignment obj[k] = v: update the existing
key in place, else append a new key. -/
def objSet : SlotMap → String → List Node → SlotMap
  | [], k, v => [(k, v)]
  | (k', v') :: rest, k, v =>
    if k' = k then (k, v) :: rest else (k', v') :: objSet rest k v

/-- JavaScript object property read obj[k]. -/
def objGet : SlotMap → String → Option (List Node)
  | [], _ => none
  | (k', v') :: rest, k => if k' = k then some v' else objGet rest k

/-- Whether a child has the Slot component as its type (child.type === Slot). -/
def isSlotNode : Node → Bool
  | Node.slotEl _ _ => true
  | _ => false

/-- JavaScript falsiness of the name prop: !child.props.name, for a name
that is absent or a string. -/
def falsyName : Option String → Bool
  | none => true
  | some s => decide (s = "")

/-- One iteration of the reduce body in findSlots, acting on one child:
reading child.type throws on null/undefined; a Slot element with a falsy
name throws the missing-name Error; a Slot element records its children
under its name and nulls its position in the working array; anything else
is appended to the working array unchanged. -/
def scanStep (slots : SlotMap) (ws : List Node) : Node → Except JSError (SlotMap × List Node)
  | Node.null => Except.error JSError.typeError
  | Node.undef => Except.error JSError.typeError
  | Node.slotEl none _ => Except.error JSError.missingSlotName
  | Node.slotEl (some s) sc =>
    if s = "" then Except.error JSError.missingSlotName
    else Except.ok (objSet slots s sc, ws ++ [Node.null])
  | c => Except.ok (slots, ws ++ [c])

/-- The reduce loop of findSlots.  ws is the already-visited prefix of the
working array (the mutated copy); on a throw the remaining elements keep
their original values in it. -/
def runScan : List Node → SlotMap → List Node → Except JSError SlotMap × List Node
  | [], slots, ws => (Except.ok slots, ws)
  | c :: rest, slots, ws =>
    match scanStep slots ws c with
    | Except.error e => (Except.error e, ws ++ c :: rest)
    | Except.ok (slots', ws') => runScan rest slots' ws'

/-- The filter predicate child !== null. -/
def notNull : Node → Bool
  | Node.null => false
  | _ => true

/-- findSlots on the already-normalized working array: run the reduce,
then set slots.default to the working array with nulled positions
filtered out. -/
def findSlotsList (children : List Node) : Except JSError SlotMap :=
  match runScan children [] [] with
  | (Except.error e, _) => Except.error e
  | (Except.ok slots, ws) => Except.ok (objSet slots "default" (ws.filter notNull))

/-- The children argument of findSlots: either a single (non-array) child
or an array of children. -/
inductive ChildrenVal where
  | single (n : Node)
  | array (ns : List Node)

/-- The normalization at the top of findSlots: a non-array child is
wrapped in a one-element array, an array is shallow-copied (value
identical). -/
def normalizeChildren : ChildrenVal → List Node
  | ChildrenVal.single n => [n]
  | ChildrenVal.array ns => ns

/-- findSlots(children) from src/index.js. -/
def findSlots (children : ChildrenVal) : Except JSError SlotMap :=
  findSlotsList (normalizeChildren children)

/-- A heap of arrays, for tracking mutation: a reference is an index into
the store.  Child nodes themselves are immutable values (findSlots only
reads their properties). -/
abbrev Store := List (List Node)

/-- findSlots with the array heap made explicit: an array argument is a
reference into the store, a single child is not.  The working array
(the slice copy, or the fresh wrapper array) is a newly allocated array,
appended to the store; all in-place nulling happens on it. -/
def findSlotsStore (store : Store) (input : Sum Nat Node) : Except JSError SlotMap × Store :=
  let ws0 : List Node :=
    match input with
    | Sum.inl r => store.getD r []
    | Sum.inr n => [n]
  (findSlotsList ws0, store ++ [(runScan ws0 [] []).2])

/-- What the Slot component returns: a React.Fragment (no markup of its
own) or, hypothetically, a real wrapping element.  The source only ever
builds the former. -/
inductive Rendered where
  | fragment (key : String) (content : List Node)
  | element (tag : String) (content : List Node)

/-- JavaScript template-literal interpolation of the name prop. -/
def jsDisplay : Option String → String
  | none => "undefined"
  | some s => s

/-- The Slot component from src/index.js: returns a keyed Fragment whose
content is exactly its children. -/
def Slot (name : Option String) (children : List Node) : Rendered :=
  Rendered.fragment ("slot#" ++ jsDisplay name) children

/-- Children on which one reduce iteration cannot throw: inspectable, and
if a Slot marker then with a non-empty name. -/
def isStepOk : Node → Bool
  | Node.null => false
  | Node.undef => false
  | Node.slotEl none _ => false
  | Node.slotEl (some s) _ => !(decide (s = ""))
  | _ => true

/-- Children that are neither Slot markers nor null/undefined. -/
def isPlain : Node → Bool
  | Node.elem _ => true
  | Node.prim _ => true
  | _ => false

/-- Children whose properties can be read without a TypeError. -/
def inspectable : Node → Bool
  | Node.null => false
  | Node.undef => false
  | _ => true

/-- A Slot marker whose name prop is absent or empty. -/
def badMarker : Node → Bool
  | Node.slotEl nm _ => falsyName nm
  | _ => false

/-- The value a position of the working array holds after its iteration:
Slot markers are nulled out, everything else is untouched. -/
def consumed (c : Node) : Node :=
  if isSlotNode c then Node.null else c

/-- The slots object after one successful iteration. -/
def stepSlots (slots : SlotMap) : Node → SlotMap
  | Node.slotEl (some s) sc => objSet slots s sc
  | _ => slots

/-- The error one iteration raises when it cannot succeed. -/
def stepErr : Node → JSError
  | Node.slotEl _ _ => JSError.missingSlotName
  | _ => JSError.typeError

/-- The children of the last Slot marker named k in the list, if any:
the value last-write-wins leaves under k. -/
def lastSlotPayload : List Node → String → Option (List Node)
  | [], _ => none
  | c :: rest, k =>
    match lastSlotPayload rest k with
    | some v => some v
    | none =>
      match c with
      | Node.slotEl (some s) sc => if s = k then some sc else none
      | _ => none

/-! ### Basic lemmas about the embedded operations -/

theorem runScan_nil (slots : SlotMap) (ws : List Node) :
    runScan [] slots ws = (Except.ok slots, ws) := rfl

theorem runScan_cons_ok {slots : SlotMap} {ws : List Node} {c : Node}
    {slots1 : SlotMap} {ws1 : List Node} (rest : List Node)
    (h : scanStep slots ws c = Except.ok (slots1, ws1)) :
    runScan (c :: rest) slots ws = runScan rest slots1 ws1 := by
  unfold runScan
  simp only [h]
  rw [← runScan.eq_def]

theorem runScan_cons_err {slots : SlotMap} {ws : List Node} {c : Node}
    {e : JSError} (rest : List Node)
    (h : scanStep slots ws c = Except.error e) :
    runScan (c :: rest) slots ws = (Except.error e, ws ++ c :: rest) := by
  unfold runScan
  simp only [h]

theorem objGet_objSet_self (m : SlotMap) (k : String) (v : List Node) :
    objGet (objSet m k v) k = some v := by
  induction m with
  | nil => simp [objSet, objGet]
  | cons p rest ih =>
    obtain ⟨a, b⟩ := p
    by_cases ha : a = k
    · simp [objSet, objGet, ha]
    · simp [objSet, objGet, ha, ih]

theorem objGet_objSet_ne (m : SlotMap) (k k' : String) (v : List Node)
    (h : ¬ k = k') :
    objGet (objSet m k v) k' = objGet m k' := by
  induction m with
  | nil => simp [objSet, objGet, h]
  | cons p rest ih =>
    obtain ⟨a, b⟩ := p
    by_cases ha : a = k
    · subst ha
      simp [objSet, objGet, h]
    · simp [objSet, objGet, ha, ih]

theorem scanStep_ok_of_isStepOk (slots : SlotMap) (ws : List Node) (c : Node)
    (h : isStepOk c = true) :
    scanStep slots ws c = Except.ok (stepSlots slots c, ws ++ [consumed c]) := by
  cases c with
  | slotEl nm sc =>
    cases nm with
    | none => simp [isStepOk] at h
    | some s =>
      have hs : ¬ s = "" := by simpa [isStepOk] using h
      simp [scanStep, stepSlots, consumed, isSlotNode, hs]
  | elem i => rfl
  | prim i => rfl
  | null => simp [isStepOk] at h
  | undef => simp [isStepOk] at h

theorem scanStep_err_of_not_isStepOk (slots : SlotMap) (ws : List Node) (c : Node)
    (h : isStepOk c = false) :
    scanStep slots ws c = Except.error (stepErr c) := by
  cases c with
  | slotEl nm sc =>
    cases nm with
    | none => rfl
    | some s =>
      have hs : s = "" := by simpa [isStepOk] using h
      simp [scanStep, stepErr, hs]
  | elem i => simp [isStepOk] at h
  | prim i => simp [isStepOk] at h
  | null => rfl
  | undef => rfl

theorem scanStep_ok_inv {slots : SlotMap} {ws : List Node} {c : Node}
    {p : SlotMap × List Node} (h : scanStep slots ws c = Except.ok p) :
    isStepOk c = true ∧ p = (stepSlots slots c, ws ++ [consumed c]) := by
  by_cases hc : isStepOk c = true
  · rw [scanStep_ok_of_isStepOk _ _ _ hc] at h
    exact ⟨hc, (Except.ok.inj h).symm⟩
  · rw [scanStep_err_of_not_isStepOk _ _ _ (by simpa using hc)] at h
    simp at h

/-- Everything a successful run of the reduce loop guarantees: every
iteration succeeded, the working array is the input with markers nulled
in place, and each key of the slots object holds the children of the
last marker so named (falling back to the initial object). -/
theorem runScan_ok (l : List Node) :
    ∀ slots ws s' ws', runScan l slots ws = (Except.ok s', ws') →
      (∀ c ∈ l, isStepOk c = true) ∧
      ws' = ws ++ l.map consumed ∧
      ∀ k, objGet s' k =
        match lastSlotPayload l k with
        | some v => some v
        | none => objGet slots k := by
  induction l with
  | nil =>
    intro slots ws s' ws' h
    rw [runScan_nil] at h
    obtain ⟨h1, h2⟩ := Prod.mk.injEq .. ▸ h
    refine ⟨by simp, by simp [← h2], ?_⟩
    intro k
    simp [lastSlotPayload, Except.ok.inj h1]
  | cons c rest ih =>
    intro slots ws s' ws' h
    cases hstep : scanStep slots ws c with
    | error e =>
      rw [runScan_cons_err rest hstep] at h
      simp at h
    | ok p =>
      obtain ⟨hok, hp⟩ := scanStep_ok_inv hstep
      subst hp
      rw [runScan_cons_ok rest hstep] at h
      obtain ⟨hall, hws, hget⟩ := ih _ _ _ _ h
      refine ⟨?_, ?_, ?_⟩
      · intro x hx
        rcases List.mem_cons.mp hx with hx' | hx'
        · rw [hx']; exact hok
        · exact hall x hx'
      · rw [hws]; simp
      · intro k
        rw [hget k]
        cases hl : lastSlotPayload rest k with
        | some v => simp [lastSlotPayload, hl]
        | none =>
          cases c with
          | slotEl nm sc =>
            cases nm with
            | none => simp [isStepOk] at hok
            | some s =>
              by_cases hsk : s = k
              · subst hsk
                simp [lastSlotPayload, hl, stepSlots, objGet_objSet_self]
              · simp [lastSlotPayload, hl, stepSlots, hsk,
                  objGet_objSet_ne _ _ _ _ hsk]
          | elem i => simp [lastSlotPayload, hl, stepSlots]
          | prim i => simp [lastSlotPayload, hl, stepSlots]
          | null => simp [isStepOk] at hok
          | undef => simp [isStepOk] at hok

/-- A run over children that are neither markers nor null/undefined
records nothing and copies every element through unchanged. -/
theorem runScan_plain (l : List Node) (h : ∀ c ∈ l, isPlain c = true) :
    ∀ slots ws, runScan l slots ws = (Except.ok slots, ws ++ l) := by
  induction l with
  | nil => intro slots ws; simp [runScan_nil]
  | cons c rest ih =>
    intro slots ws
    have hc : isPlain c = true := h c (List.mem_cons_self ..)
    have hrest : ∀ x ∈ rest, isPlain x = true :=
      fun x hx => h x (List.mem_cons_of_mem _ hx)
    have hstep : scanStep slots ws c = Except.ok (slots, ws ++ [c]) := by
      cases c <;> first | rfl | simp [isPlain] at hc
    rw [runScan_cons_ok rest hstep, ih hrest slots (ws ++ [c])]
    simp

/-- A successful run extends over appended input by continuing from the
reached state. -/
theorem runScan_app_ok (l : List Node) :
    ∀ slots ws s' ws' (ys : List Node), runScan l slots ws = (Except.ok s', ws') →
      runScan (l ++ ys) slots ws = runScan ys s' ws' := by
  induction l with
  | nil =>
    intro slots ws s' ws' ys h
    rw [runScan_nil] at h
    injection h with h1 h2
    injection h1 with h1
    subst h1
    subst h2
    rfl
  | cons c rest ih =>
    intro slots ws s' ws' ys h
    cases hstep : scanStep slots ws c with
    | error e =>
      rw [runScan_cons_err rest hstep] at h
      simp at h
    | ok p =>
      obtain ⟨a, b⟩ := p
      rw [runScan_cons_ok rest hstep] at h
      rw [List.cons_append, runScan_cons_ok (rest ++ ys) hstep]
      exact ih _ _ _ _ _ h

/-- The scan throws the error of the first failing iteration, regardless
of everything after that position. -/
theorem runScan_first_error (pre : List Node) :
    ∀ slots ws, (∀ c ∈ pre, isStepOk c = true) →
      ∀ c0 rest, isStepOk c0 = false →
        (runScan (pre ++ c0 :: rest) slots ws).1 = Except.error (stepErr c0) := by
  induction pre with
  | nil =>
    intro slots ws _ c0 rest h0
    rw [List.nil_append, runScan_cons_err rest (scanStep_err_of_not_isStepOk _ _ _ h0)]
  | cons c pre' ih =>
    intro slots ws h c0 rest h0
    have hc : isStepOk c = true := h c (List.mem_cons_self ..)
    rw [List.cons_append,
      runScan_cons_ok (pre' ++ c0 :: rest) (scanStep_ok_of_isStepOk _ _ _ hc)]
    exact ih _ _ (fun x hx => h x (List.mem_cons_of_mem _ hx)) c0 rest h0

theorem scanStep_error_of_inspectable {slots : SlotMap} {ws : List Node}
    {c : Node} {e : JSError} (hc : inspectable c = true)
    (h : scanStep slots ws c = Except.error e) : e = JSError.missingSlotName := by
  cases c with
  | slotEl nm sc =>
    cases nm with
    | none => simpa [scanStep] using h.symm
    | some s =>
      by_cases hs : s = ""
      · subst hs
        simpa [scanStep] using h.symm
      · simp [scanStep, hs] at h
  | elem i => simp [scanStep] at h
  | prim i => simp [scanStep] at h
  | null => simp [inspectable] at hc
  | undef => simp [inspectable] at hc

/-- When every child tolerates property access, the only error the scan
can raise is the missing-slot-name one. -/
theorem runScan_error_missing (l : List Node) :
    ∀ slots ws e, (∀ c ∈ l, inspectable c = true) →
      (runScan l slots ws).1 = Except.error e → e = JSError.missingSlotName := by
  induction l with
  | nil =>
    intro slots ws e _ h
    simp [runScan_nil] at h
  | cons c rest ih =>
    intro slots ws e h herr
    cases hstep : scanStep slots ws c with
    | error e' =>
      rw [runScan_cons_err rest hstep] at herr
      have he : e' = e := by simpa using herr
      subst he
      exact scanStep_error_of_inspectable (h c (List.mem_cons_self ..)) hstep
    | ok p =>
      obtain ⟨a, b⟩ := p
      rw [runScan_cons_ok rest hstep] at herr
      exact ih a b e (fun x hx => h x (List.mem_cons_of_mem _ hx)) herr

/-- On children that all tolerate property access, the scan raises the
missing-name error exactly when some marker has a falsy name. -/
theorem runScan_missing_iff (l : List Node) :
    ∀ slots ws, (∀ c ∈ l, inspectable c = true) →
      ((runScan l slots ws).1 = Except.error JSError.missingSlotName ↔
        l.any badMarker = true) := by
  induction l with
  | nil =>
    intro slots ws _
    simp [runScan_nil]
  | cons c rest ih =>
    intro slots ws h
    have hc : inspectable c = true := h c (List.mem_cons_self ..)
    have hrest : ∀ x ∈ rest, inspectable x = true :=
      fun x hx => h x (List.mem_cons_of_mem _ hx)
    cases hbm : badMarker c with
    | true =>
      have hnotok : isStepOk c = false := by
        cases c with
        | slotEl nm sc =>
          cases nm with
          | none => rfl
          | some s =>
            have hs : s = "" := by simpa [badMarker, falsyName] using hbm
            simp [isStepOk, hs]
        | elem i => simp [badMarker] at hbm
        | prim i => simp [badMarker] at hbm
        | null => rfl
        | undef => rfl
      have hse : stepErr c = JSError.missingSlotName := by
        cases c with
        | slotEl nm sc => rfl
        | elem i => simp [badMarker] at hbm
        | prim i => simp [badMarker] at hbm
        | null => simp [badMarker] at hbm
        | undef => simp [badMarker] at hbm
      rw [runScan_cons_err rest (scanStep_err_of_not_isStepOk _ _ _ hnotok)]
      simp [hse, List.any_cons, hbm]
    | false =>
      have hok : isStepOk c = true := by
        cases c with
        | slotEl nm sc =>
          cases nm with
          | none => simp [badMarker, falsyName] at hbm
          | some s =>
            have hs : ¬ s = "" := by simpa [badMarker, falsyName] using hbm
            simp [isStepOk, hs]
        | elem i => rfl
        | prim i => rfl
        | null => simp [inspectable] at hc
        | undef => simp [inspectable] at hc
      rw [runScan_cons_ok rest (scanStep_ok_of_isStepOk _ _ _ hok), ih _ _ hrest]
      simp [List.any_cons, hbm]

theorem lastSlotPayload_cons (c : Node) (l : List Node) (k : String) :
    lastSlotPayload (c :: l) k =
      match lastSlotPayload l k with
      | some v => some v
      | none =>
        match c with
        | Node.slotEl (some s) sc => if s = k then some sc else none
        | _ => none := rfl

theorem lastSlotPayload_append (xs ys : List Node) (k : String) :
    lastSlotPayload (xs ++ ys) k =
      match lastSlotPayload ys k with
      | some v => some v
      | none => lastSlotPayload xs k := by
  induction xs with
  | nil =>
    simp only [List.nil_append]
    cases h : lastSlotPayload ys k <;> simp [lastSlotPayload, h]
  | cons c xs' ih =>
    rw [List.cons_append, lastSlotPayload_cons, ih, lastSlotPayload_cons]
    cases lastSlotPayload ys k <;> cases lastSlotPayload xs' k <;> rfl

/-- After a throw-free scan, filtering the nulled working array leaves
exactly the non-marker children, in order. -/
theorem filter_map_consumed (l : List Node) (h : ∀ c ∈ l, isStepOk c = true) :
    (l.map consumed).filter notNull = l.filter (fun c => !isSlotNode c) := by
  induction l with
  | nil => rfl
  | cons c rest ih =>
    have hc : isStepOk c = true := h c (List.mem_cons_self ..)
    have hrest : ∀ x ∈ rest, isStepOk x = true :=
      fun x hx => h x (List.mem_cons_of_mem _ hx)
    cases c with
    | slotEl nm sc =>
      simp [List.map_cons, List.filter_cons, consumed, isSlotNode, notNull, ih hrest]
    | elem i =>
      simp [List.map_cons, List.filter_cons, consumed, isSlotNode, notNull, ih hrest]
    | prim i =>
      simp [List.map_cons, List.filter_cons, consumed, isSlotNode, notNull, ih hrest]
    | null => simp [isStepOk] at hc
    | undef => simp [isStepOk] at hc

theorem findSlotsList_ok_inv {l : List Node} {m : SlotMap}
    (h : findSlotsList l = Except.ok m) :
    ∃ slots ws, runScan l [] [] = (Except.ok slots, ws) ∧
      m = objSet slots "default" (ws.filter notNull) := by
  unfold findSlotsList at h
  cases hr : runScan l [] [] with
  | mk fst snd =>
    rw [hr] at h
    cases fst with
    | error e => exact Except.noConfusion h
    | ok slots => exact ⟨slots, snd, rfl, (Except.ok.inj h).symm⟩

theorem findSlotsList_error_inv {l : List Node} {e : JSError}
    (h : findSlotsList l = Except.error e) :
    (runScan l [] []).1 = Except.error e := by
  unfold findSlotsList at h
  cases hr : runScan l [] [] with
  | mk fst snd =>
    rw [hr] at h
    cases fst with
    | error e' =>
      have he : e' = e := Except.error.inj h
      simp [he]
    | ok slots => exact Except.noConfusion h

theorem findSlotsList_eq_of_runScan_error {l : List Node} {e : JSError}
    (h : (runScan l [] []).1 = Except.error e) :
    findSlotsList l = Except.error e := by
  unfold findSlotsList
  cases hr : runScan l [] [] with
  | mk fst snd =>
    rw [hr] at h
    cases fst with
    | error e' =>
      have he : e' = e := by simpa using h
      subst he
      rfl
    | ok slots => simp at h

theorem findSlotsList_eq_of_runScan_ok {l : List Node} {slots : SlotMap}
    {ws : List Node} (h : runScan l [] [] = (Except.ok slots, ws)) :
    findSlotsList l = Except.ok (objSet slots "default" (ws.filter notNull)) := by
  unfold findSlotsList
  rw [h]

/-- Everything a successful findSlots call guarantees: every iteration
succeeded, the default entry is the ordered non-marker remainder, and
every other key holds the children of the last marker so named. -/
theorem findSlots_ok_facts {l : List Node} {m : SlotMap}
    (h : findSlots (ChildrenVal.array l) = Except.ok m) :
    (∀ c ∈ l, isStepOk c = true) ∧
    objGet m "default" = some (l.filter (fun c => !isSlotNode c)) ∧
    ∀ k, ¬ k = "default" → objGet m k = lastSlotPayload l k := by
  obtain ⟨slots, ws, hr, hm⟩ := findSlotsList_ok_inv h
  obtain ⟨hall, hws, hget⟩ := runScan_ok l [] [] slots ws hr
  subst hm
  refine ⟨hall, ?_, ?_⟩
  · rw [objGet_objSet_self, hws]
    simp only [List.nil_append]
    rw [filter_map_consumed l hall]
  · intro k hk
    rw [objGet_objSet_ne _ _ _ _ (fun hkk => hk hkk.symm), hget k]
    cases lastSlotPayload l k <;> simp [objGet]

/-! ### Claim theorems -/

/-- Claim C1 is false as stated: this children sequence has exactly one
Slot marker, named foo with nested content, yet findSlots raises a
TypeError (reading the type property of the null sibling) instead of
returning the described map. -/
theorem C1_counterexample :
    findSlots (ChildrenVal.array
      [Node.null, Node.slotEl (some "foo") [Node.elem 0]]) =
      Except.error JSError.typeError := rfl

/-- Claim C1 (amended): for every children sequence whose elements,
apart from exactly one Slot marker named foo with nested content C, are
plain children (non-marker and neither null nor undefined), findSlots
returns the map with exactly the keys foo, bound to C, and default,
bound to the remaining children in their original relative order. -/
theorem C1_single_named_slot (pre post C : List Node)
    (h : ∀ c ∈ pre ++ post, isPlain c = true) :
    findSlots (ChildrenVal.array (pre ++ Node.slotEl (some "foo") C :: post)) =
      Except.ok [("foo", C), ("default", pre ++ post)] := by
  have hpre : ∀ c ∈ pre, isPlain c = true :=
    fun c hc => h c (List.mem_append_left _ hc)
  have hpost : ∀ c ∈ post, isPlain c = true :=
    fun c hc => h c (List.mem_append_right _ hc)
  have hstep : scanStep [] pre (Node.slotEl (some "foo") C) =
      Except.ok (objSet [] "foo" C, pre ++ [Node.null]) := by
    simp [scanStep]
  have h1 : runScan pre [] [] = (Except.ok [], pre) := by
    simpa using runScan_plain pre hpre [] []
  have hrun : runScan (pre ++ Node.slotEl (some "foo") C :: post) [] [] =
      (Except.ok (objSet [] "foo" C), (pre ++ [Node.null]) ++ post) := by
    rw [runScan_app_ok pre [] [] [] pre (Node.slotEl (some "foo") C :: post) h1,
      runScan_cons_ok post hstep,
      runScan_plain post hpost (objSet [] "foo" C) (pre ++ [Node.null])]
  have hres := findSlotsList_eq_of_runScan_ok hrun
  have hnn : ∀ c : Node, isPlain c = true → notNull c = true := by
    intro c hc
    cases c <;> simp [isPlain, notNull] at hc ⊢
  have hfil : ((pre ++ [Node.null]) ++ post).filter notNull = pre ++ post := by
    rw [List.filter_append, List.filter_append,
      List.filter_eq_self.mpr (fun c hc => hnn c (hpre c hc)),
      List.filter_eq_self.mpr (fun c hc => hnn c (hpost c hc))]
    simp [notNull, List.filter_cons]
  have hobj : objSet (objSet [] "foo" C) "default" (pre ++ post) =
      [("foo", C), ("default", pre ++ post)] := by
    have hfd : ¬ ("foo" : String) = "default" := by decide
    simp [objSet, hfd]
  rw [hfil, hobj] at hres
  exact hres

theorem C1_witness :
    findSlots (ChildrenVal.array
      [Node.prim 1, Node.slotEl (some "foo") [Node.elem 0], Node.prim 2]) =
      Except.ok [("foo", [Node.elem 0]), ("default", [Node.prim 1, Node.prim 2])] :=
  C1_single_named_slot [Node.prim 1] [Node.prim 2] [Node.elem 0] (by decide)

/-- Claim C3 is false as stated: a children sequence containing no Slot
markers on which findSlots nonetheless fails, because one child is null
and reading its type property throws. -/
theorem C3_counterexample :
    findSlots (ChildrenVal.array [Node.null]) = Except.error JSError.typeError := rfl

/-- Claim C3 (amended): for every children sequence containing no Slot
markers and no null or undefined children, findSlots succeeds and
returns the map whose only key is default, bound to the input sequence
unchanged. -/
theorem C3_no_markers_identity (l : List Node) (h : ∀ c ∈ l, isPlain c = true) :
    findSlots (ChildrenVal.array l) = Except.ok [("default", l)] := by
  have h1 : runScan l [] [] = (Except.ok [], l) := by
    simpa using runScan_plain l h [] []
  have hres := findSlotsList_eq_of_runScan_ok h1
  have hnn : ∀ c : Node, isPlain c = true → notNull c = true := by
    intro c hc
    cases c <;> simp [isPlain, notNull] at hc ⊢
  rw [List.filter_eq_self.mpr (fun c hc => hnn c (h c hc))] at hres
  exact hres

theorem C3_witness :
    findSlots (ChildrenVal.array [Node.prim 0, Node.elem 1]) =
      Except.ok [("default", [Node.prim 0, Node.elem 1])] :=
  C3_no_markers_identity [Node.prim 0, Node.elem 1] (by decide)

/-- Claim C6: findSlots on a single non-array child X returns the same
result as findSlots on the one-element array containing X: the
normalization at the top of findSlots wraps the single child. -/
theorem C6_single_normalization (n : Node) :
    findSlots (ChildrenVal.single n) = findSlots (ChildrenVal.array [n]) := rfl

/-- Claim C7: whenever findSlots succeeds on a children sequence, the
output's default entry is exactly the subsequence of non-marker elements
in their original relative order (the filter of the input). -/
theorem C7_default_order (l : List Node) (m : SlotMap)
    (h : findSlots (ChildrenVal.array l) = Except.ok m) :
    objGet m "default" = some (l.filter (fun c => !isSlotNode c)) :=
  (findSlots_ok_facts h).2.1

theorem C7_witness :
    objGet [("x", ([] : List Node)), ("default", [Node.prim 0, Node.prim 1])]
      "default" = some [Node.prim 0, Node.prim 1] := by
  have h := C7_default_order [Node.prim 0, Node.slotEl (some "x") [], Node.prim 1]
    [("x", []), ("default", [Node.prim 0, Node.prim 1])] rfl
  simpa [isSlotNode] using h

/-- Claim C9: for every name — including an absent or empty one, which it
does not validate — the Slot component returns a Fragment (no wrapping
element) whose content is exactly the given children, unchanged. -/
theorem C9_slot_marker (name : Option String) (children : List Node) :
    Slot name children =
      Rendered.fragment ("slot#" ++ jsDisplay name) children := rfl

/-- Claim C2 is false as stated: this sequence contains a Slot marker
with an absent name, yet findSlots raises a TypeError (from the null
child scanned first) rather than the missing-name error. -/
theorem C2_counterexample :
    findSlots (ChildrenVal.array [Node.null, Node.slotEl none [Node.elem 0]]) =
      Except.error JSError.typeError ∧
    ¬ findSlots (ChildrenVal.array [Node.null, Node.slotEl none [Node.elem 0]]) =
      Except.error JSError.missingSlotName := by
  constructor
  · rfl
  · intro hcontra
    have h1 : findSlots (ChildrenVal.array
        [Node.null, Node.slotEl none [Node.elem 0]]) =
        Except.error JSError.typeError := rfl
    rw [h1] at hcontra
    exact JSError.noConfusion (Except.error.inj hcontra)

/-- Claim C2 (amended): on children sequences whose elements all tolerate
property access (no null/undefined children), findSlots raises the
missing-name error exactly when some element has the Slot type identity
and an absent or empty name; moreover the error is raised at the first
such marker, aborting the scan regardless of what follows it, and the
result then carries no slot map at all. -/
theorem C2_missing_slot_name :
    (∀ l : List Node, (∀ c ∈ l, inspectable c = true) →
      (findSlots (ChildrenVal.array l) = Except.error JSError.missingSlotName ↔
        ∃ nm sc, Node.slotEl nm sc ∈ l ∧ falsyName nm = true)) ∧
    (∀ (pre : List Node) (nm : Option String) (sc rest : List Node),
      (∀ c ∈ pre, isStepOk c = true) → falsyName nm = true →
      findSlots (ChildrenVal.array (pre ++ Node.slotEl nm sc :: rest)) =
        Except.error JSError.missingSlotName) := by
  constructor
  · intro l h
    constructor
    · intro herr
      have h1 := findSlotsList_error_inv herr
      have h2 := (runScan_missing_iff l [] [] h).mp h1
      obtain ⟨c, hcmem, hcbad⟩ := List.any_eq_true.mp h2
      cases c with
      | slotEl nm sc => exact ⟨nm, sc, hcmem, by simpa [badMarker] using hcbad⟩
      | elem i => simp [badMarker] at hcbad
      | prim i => simp [badMarker] at hcbad
      | null => simp [badMarker] at hcbad
      | undef => simp [badMarker] at hcbad
    · rintro ⟨nm, sc, hmem, hbad⟩
      have hany : l.any badMarker = true :=
        List.any_eq_true.mpr ⟨Node.slotEl nm sc, hmem, by simpa [badMarker] using hbad⟩
      exact findSlotsList_eq_of_runScan_error ((runScan_missing_iff l [] [] h).mpr hany)
  · intro pre nm sc rest hpre hbad
    have hnotok : isStepOk (Node.slotEl nm sc) = false := by
      cases nm with
      | none => rfl
      | some s =>
        have hs : s = "" := by simpa [falsyName] using hbad
        simp [isStepOk, hs]
    exact findSlotsList_eq_of_runScan_error
      (runScan_first_error pre [] [] hpre (Node.slotEl nm sc) rest hnotok)

theorem C2_witness :
    findSlots (ChildrenVal.array [Node.slotEl none [Node.elem 0]]) =
      Except.error JSError.missingSlotName ∧
    findSlots (ChildrenVal.array
      [Node.prim 0, Node.slotEl (some "") [], Node.null]) =
      Except.error JSError.missingSlotName := by
  constructor
  · exact (C2_missing_slot_name.1 [Node.slotEl none [Node.elem 0]] (by decide)).mpr
      ⟨none, [Node.elem 0], List.mem_singleton.mpr rfl, rfl⟩
  · exact C2_missing_slot_name.2 [Node.prim 0] (some "") [] [Node.null] (by decide) rfl

/-- Claim C4 is false as stated: a null child, whose type identity does
not match the Slot marker, makes findSlots fail with a TypeError instead
of passing it through into the default group. -/
theorem C4_counterexample :
    findSlots (ChildrenVal.array [Node.prim 0, Node.null]) =
      Except.error JSError.typeError := rfl

/-- Claim C4 (amended): a child that is neither null nor undefined and
whose type identity does not match the Slot marker never causes a
failure — on sequences of such property-safe children the only possible
error is the missing slot name — and on success every such child lands
in the default group; a null or undefined child, however, aborts
findSlots with a TypeError as soon as the scan reaches it. -/
theorem C4_foreign_children :
    (∀ (l : List Node) (e : JSError), (∀ c ∈ l, inspectable c = true) →
      findSlots (ChildrenVal.array l) = Except.error e →
      e = JSError.missingSlotName) ∧
    (∀ (l : List Node) (m : SlotMap) (c : Node),
      findSlots (ChildrenVal.array l) = Except.ok m →
      c ∈ l → isSlotNode c = false →
      ∃ d, objGet m "default" = some d ∧ c ∈ d) ∧
    (∀ (pre rest : List Node), (∀ c ∈ pre, isStepOk c = true) →
      findSlots (ChildrenVal.array (pre ++ Node.null :: rest)) =
        Except.error JSError.typeError ∧
      findSlots (ChildrenVal.array (pre ++ Node.undef :: rest)) =
        Except.error JSError.typeError) := by
  refine ⟨?_, ?_, ?_⟩
  · intro l e h herr
    exact runScan_error_missing l [] [] e h (findSlotsList_error_inv herr)
  · intro l m c hok hmem hns
    refine ⟨l.filter (fun c => !isSlotNode c), (findSlots_ok_facts hok).2.1, ?_⟩
    exact List.mem_filter.mpr ⟨hmem, by simp [hns]⟩
  · intro pre rest hpre
    exact ⟨findSlotsList_eq_of_runScan_error
        (runScan_first_error pre [] [] hpre Node.null rest rfl),
      findSlotsList_eq_of_runScan_error
        (runScan_first_error pre [] [] hpre Node.undef rest rfl)⟩

theorem C4_witness :
    JSError.missingSlotName = JSError.missingSlotName ∧
    (∃ d, objGet [("default", [Node.prim 7])] "default" = some d ∧
      Node.prim 7 ∈ d) ∧
    (findSlots (ChildrenVal.array [Node.elem 1, Node.null]) =
        Except.error JSError.typeError ∧
      findSlots (ChildrenVal.array [Node.elem 1, Node.undef]) =
        Except.error JSError.typeError) := by
  refine ⟨?_, ?_, ?_⟩
  · exact C4_foreign_children.1 [Node.slotEl (some "") []]
      JSError.missingSlotName (by decide) rfl
  · exact C4_foreign_children.2.1 [Node.prim 7] [("default", [Node.prim 7])]
      (Node.prim 7) rfl (List.mem_singleton.mpr rfl) rfl
  · have h := C4_foreign_children.2.2 [Node.elem 1] [] (by decide)
    simpa using h

/-- Claim C5 is false as stated: a children sequence containing two Slot
markers both named foo, with contents C1 then C2, on which findSlots
produces no output at all (a later null child makes it throw), so no foo
entry equal to C2 exists. -/
theorem C5_counterexample :
    findSlots (ChildrenVal.array
      [Node.slotEl (some "foo") [Node.prim 1],
        Node.slotEl (some "foo") [Node.prim 2], Node.null]) =
      Except.error JSError.typeError := rfl

/-- Claim C5 (amended): for every children sequence of the shape
pre ++ [Slot foo C1] ++ mid ++ [Slot foo C2] ++ post in which no marker
named foo occurs in post, if findSlots succeeds then the output's foo
entry equals C2: the later marker's write overwrote the earlier one. -/
theorem C5_last_write_wins (pre mid post C1 C2 : List Node) (m : SlotMap)
    (hpost : lastSlotPayload post "foo" = none)
    (h : findSlots (ChildrenVal.array
      (pre ++ Node.slotEl (some "foo") C1 ::
        (mid ++ Node.slotEl (some "foo") C2 :: post))) = Except.ok m) :
    objGet m "foo" = some C2 := by
  have hget := (findSlots_ok_facts h).2.2 "foo" (by decide)
  rw [hget, lastSlotPayload_append, lastSlotPayload_cons, lastSlotPayload_append,
    lastSlotPayload_cons, hpost]
  simp

theorem C5_witness :
    objGet [("foo", [Node.prim 2]), ("default", [])] "foo" = some [Node.prim 2] :=
  C5_last_write_wins [] [] [] [Node.prim 1] [Node.prim 2]
    [("foo", [Node.prim 2]), ("default", [])] rfl rfl

/-- Claim C8: findSlots never mutates a pre-existing array in the heap —
in particular the caller's children array — whether it returns or
throws: every array already in the store is unchanged afterwards, the
in-place nulling having happened only on the freshly allocated shallow
copy, and the returned value agrees with the pure findSlots of the input
value.  Child nodes are immutable values of the embedding, matching that
findSlots only ever reads their properties. -/
theorem C8_no_mutation (store : Store) (input : Sum Nat Node) :
    ((findSlotsStore store input).2).take store.length = store ∧
    (findSlotsStore store input).1 =
      findSlots (match input with
        | Sum.inl r => ChildrenVal.array (store.getD r [])
        | Sum.inr n => ChildrenVal.single n) := by
  cases input with
  | inl r => exact ⟨List.take_left .., rfl⟩
  | inr n => exact ⟨List.take_left .., rfl⟩

/-- Claim C10: even when the children contain a Slot marker named
default, a successful findSlots call returns a default entry equal to
the filtered non-marker remainder: the marker's recorded entry is
overwritten by the final default assignment, and its nested children C
are silently discarded — no key of the output depends on C. -/
theorem C10_default_overwritten (pre post C : List Node) (m : SlotMap)
    (h : findSlots (ChildrenVal.array
      (pre ++ Node.slotEl (some "default") C :: post)) = Except.ok m) :
    objGet m "default" =
      some ((pre ++ post).filter (fun c => !isSlotNode c)) ∧
    ∀ k, ¬ k = "default" → objGet m k = lastSlotPayload (pre ++ post) k := by
  obtain ⟨hall, hdef, hother⟩ := findSlots_ok_facts h
  constructor
  · rw [hdef]
    simp [List.filter_append, List.filter_cons, isSlotNode]
  · intro k hk
    have hk' : ¬ ("default" : String) = k := fun hh => hk hh.symm
    rw [hother k hk, lastSlotPayload_append, lastSlotPayload_cons,
      lastSlotPayload_append]
    cases lastSlotPayload post k <;> simp [hk']

theorem C10_witness :
    objGet [("default", ([] : List Node))] "default" = some [] ∧
    objGet [("default", ([] : List Node))] "x" = none := by
  have h := C10_default_overwritten [] [] [Node.prim 0] [("default", [])] rfl
  refine ⟨by simpa using h.1, ?_⟩
  have h2 := h.2 "x" (by decide)
  simpa [lastSlotPayload] using h2

end ReactSlot
